import Mathlib

/-!
Shallow embedding of the ALX Polly server-action layer
(src/app/lib/actions/poll-actions.ts and the admin gate in
src/app/(dashboard)/admin/withAdminAuth.tsx).

Strings are Lean strings; JavaScript numbers are modelled as rationals;
the database is an explicit record of poll rows and vote rows threaded
through each action.  Every action returns its error field (a nullable
string, exactly the strings the source returns) together with the
database state after the call.
-/

namespace Polly

/-- JavaScript String.prototype.trim: drop leading and trailing whitespace. -/
def jsTrim (s : String) : String :=
  ⟨((s.data.dropWhile Char.isWhitespace).reverse.dropWhile Char.isWhitespace).reverse⟩

/-- Single left-to-right pass implementing the JavaScript global
replace of the pattern: an opening angle bracket, a run of characters
other than the closing angle bracket, then the closing angle bracket.
Each leftmost match runs from a LT character through the first GT
character after it and is deleted.  pending holds, in reverse, the
characters of a candidate match opened by a LT and not yet closed: a GT
closes and deletes the whole candidate; if the input ends first the LT
had no later GT, so the pattern never matched there and the candidate
is emitted literally. -/
def stripTagsAux : Option (List Char) → List Char → List Char
  | none, [] => []
  | some pending, [] => pending.reverse
  | none, c :: cs =>
    if c = '<' then stripTagsAux (some [c]) cs
    else c :: stripTagsAux none cs
  | some pending, c :: cs =>
    if c = '>' then stripTagsAux none cs
    else stripTagsAux (some (c :: pending)) cs

/-- The regex replace in sanitizeString: delete every substring that
starts at a LT character and ends at the first GT character after it. -/
def stripTags (l : List Char) : List Char := stripTagsAux none l

/-- sanitizeString from poll-actions.ts: trim, then strip HTML-tag-like
substrings. -/
def sanitizeString (input : String) : String :=
  ⟨stripTags (jsTrim input).data⟩

/-- Whether the list contains a LT character that is followed (anywhere
later) by a GT character; this is exactly the condition for the string
to contain a substring matching the HTML-tag-like pattern. -/
def hasLtBeforeGt : List Char → Bool
  | [] => false
  | c :: cs => (c = '<' && cs.contains '>') || hasLtBeforeGt cs

/-- Result of validatePollInput. -/
inductive ValidationResult where
  | error (msg : String)
  | ok (sanitizedQuestion : String) (sanitizedOptions : List String)
deriving DecidableEq, Repr

/-- The validOptions binding in validatePollInput: drop options that
are empty or whitespace-only. -/
def filterValidOptions (options : List String) : List String :=
  options.filter (fun opt => !(opt == "") && !(jsTrim opt == ""))

/-- validatePollInput from poll-actions.ts. -/
def validatePollInput (question : String) (options : List String) : ValidationResult :=
  if question = "" ∨ jsTrim question = "" then .error "Question is required."
  else if 500 < question.length then .error "Question must be less than 500 characters."
  else if (filterValidOptions options).length < 2 then
    .error "Please provide at least two options."
  else if 10 < (filterValidOptions options).length then
    .error "Maximum 10 options allowed."
  else if (filterValidOptions options).any (fun opt => 200 < opt.length) then
    .error "Each option must be less than 200 characters."
  else .ok (sanitizeString question) ((filterValidOptions options).map sanitizeString)

/-- A runtime JavaScript value passed where the TypeScript signature
says number: either an actual number (modelled as a rational) or a
value of some other runtime type. -/
inductive JSVal where
  | num (q : ℚ)
  | nonNum
deriving DecidableEq, Repr

/-- A row of the polls table. -/
structure PollRow where
  id : String
  user_id : String
  question : String
  options : List String
deriving DecidableEq, Repr

/-- A row of the votes table.  user_id is absent for anonymous votes;
option_index is the stored JavaScript value: some q when it is a
number, none when it is missing or of a non-number type. -/
structure VoteRow where
  poll_id : String
  user_id : Option String
  option_index : Option ℚ
deriving DecidableEq, Repr

/-- The two tables the action layer touches. -/
structure DB where
  polls : List PollRow
  votes : List VoteRow
deriving DecidableEq, Repr

/-- The caller identity read from the authentication service:
supabase.auth.getUser().  email may be absent; role is
app_metadata.role when present. -/
structure AuthUser where
  id : String
  email : Option String
  role : Option String
deriving DecidableEq, Repr

/-- The value an action returns (its error field, null on success)
paired with the database state after the call. -/
structure ActionResult where
  error : Option String
  db : DB
deriving DecidableEq, Repr

/-- createPoll from poll-actions.ts.  newId stands for the row
identifier the storage service assigns on insert; user is the caller
returned by the authentication service (none when unauthenticated);
question and options are the form-data fields, with the JavaScript
filter Boolean on options modelled as dropping empty strings. -/
def createPoll (db : DB) (user : Option AuthUser) (newId : String)
    (question : String) (options : List String) : ActionResult :=
  let fOptions := options.filter (fun o => !(o == ""))
  match validatePollInput question fOptions with
  | .error e => ⟨some e, db⟩
  | .ok sq so =>
    match user with
    | none => ⟨some "You must be logged in to create a poll.", db⟩
    | some u =>
      ⟨none, { db with polls := db.polls ++ [⟨newId, u.id, sq, so⟩] }⟩

/-- updatePoll from poll-actions.ts: the update is filtered by poll id
AND caller id, so it rewrites exactly the rows matching both. -/
def updatePoll (db : DB) (user : Option AuthUser) (pollId : String)
    (question : String) (options : List String) : ActionResult :=
  let fOptions := options.filter (fun o => !(o == ""))
  match validatePollInput question fOptions with
  | .error e => ⟨some e, db⟩
  | .ok sq so =>
    match user with
    | none => ⟨some "You must be logged in to update a poll.", db⟩
    | some u =>
      ⟨none, { db with polls := db.polls.map (fun p =>
        if p.id == pollId && p.user_id == u.id then
          { p with question := sq, options := so }
        else p) }⟩

/-- The admin allow-list hard-coded in withAdminAuth.tsx. -/
def adminEmails : List String := ["admin@alxpolly.com", "admin@example.com"]

/-- Whether pat occurs as a contiguous substring of s
(JavaScript String.prototype.includes). -/
def containsSubstr (s pat : String) : Bool :=
  s.data.tails.any (fun t => pat.data.isPrefixOf t)

/-- The admin test inside deletePoll:
user.email?.includes admin, or app_metadata.role equals admin. -/
def isAdminDelete (u : AuthUser) : Bool :=
  (match u.email with
   | some e => containsSubstr e "admin"
   | none => false) || u.role == some "admin"

/-- The admin classification in withAdminAuth.tsx: the email is on the
allow-list, or the email contains the substring admin, or the role
metadata equals admin. -/
def isAdminGate (u : AuthUser) : Bool :=
  adminEmails.contains (u.email.getD "") ||
  (match u.email with
   | some e => containsSubstr e "admin"
   | none => false) ||
  u.role == some "admin"

/-- deletePoll from poll-actions.ts. -/
def deletePoll (db : DB) (user : Option AuthUser) (id : String) : ActionResult :=
  match user with
  | none => ⟨some "You must be logged in to delete a poll.", db⟩
  | some u =>
    match db.polls.find? (fun p => p.id == id) with
    | none => ⟨some "Poll not found.", db⟩
    | some poll =>
      if !(poll.user_id == u.id) && !(isAdminDelete u) then
        ⟨some "You can only delete your own polls.", db⟩
      else
        ⟨none, { db with polls := db.polls.filter (fun p => !(p.id == id)) }⟩

/-- submitVote from poll-actions.ts.  optionIndex is the runtime value
the client sent; the guard rejects an empty pollId, a non-number, or a
negative number (exactly the source condition).  The inserted row keeps
the number that was sent, integer or not. -/
def submitVote (db : DB) (user : Option AuthUser) (pollId : String)
    (optionIndex : JSVal) : ActionResult :=
  match optionIndex with
  | .nonNum => ⟨some "Invalid vote data.", db⟩
  | .num q =>
    if pollId = "" ∨ q < 0 then ⟨some "Invalid vote data.", db⟩
    else
      match db.polls.find? (fun p => p.id == pollId) with
      | none => ⟨some "Poll not found.", db⟩
      | some poll =>
        if (poll.options.length : ℚ) ≤ q then ⟨some "Invalid option selected.", db⟩
        else
          match user with
          | some u =>
            match db.votes.find? (fun w => w.poll_id == pollId && w.user_id == some u.id) with
            | some _ => ⟨some "You have already voted on this poll.", db⟩
            | none =>
              ⟨none, { db with votes := db.votes ++ [⟨pollId, some u.id, some q⟩] }⟩
          | none =>
            ⟨none, { db with votes := db.votes ++ [⟨pollId, none, some q⟩] }⟩

/-- The per-vote validity test inside calculateVoteCounts: the stored
option_index is a number, is an integer, and lies in the half-open
range from 0 to the option count. -/
def validIndexFor (optionCount : ℕ) : Option ℚ → Bool
  | none => false
  | some q => decide (0 ≤ q) && decide (q < (optionCount : ℚ)) && q.den == 1

/-- One step of the forEach loop in calculateVoteCounts. -/
def countStep (optionCount : ℕ) (counts : List ℕ) (v : VoteRow) : List ℕ :=
  match v.option_index with
  | none => counts
  | some q =>
    if 0 ≤ q ∧ q < (optionCount : ℚ) ∧ q.den = 1 then
      counts.set q.num.toNat ((counts.getD q.num.toNat 0) + 1)
    else counts

/-- calculateVoteCounts from poll-actions.ts: a zero-initialised array
of length optionCount, bumped once per valid vote; invalid votes are
skipped. -/
def calculateVoteCounts (votes : List VoteRow) (optionCount : ℕ) : List ℕ :=
  votes.foldl (countStep optionCount) (List.replicate optionCount 0)

/-- Math.round: round half toward positive infinity. -/
def jsRound (q : ℚ) : ℤ := ⌊q + 1 / 2⌋

/-- calculatePercentage from poll-actions.ts. -/
def calculatePercentage (votes totalVotes : ℕ) : ℤ :=
  if totalVotes = 0 ∨ votes = 0 then 0
  else jsRound ((votes : ℚ) / (totalVotes : ℚ) * 100)

/-- One formatted option of PollResults: text, vote count, percentage. -/
structure OptionResult where
  text : String
  votes : ℕ
  percentage : ℤ
deriving DecidableEq, Repr

/-- The result-assembly step of getPollResults once the poll row and
its votes are in hand: per-option counts, total votes as the raw number
of vote rows, and the formatted option list. -/
def pollResultsCore (options : List String) (votes : List VoteRow) :
    List OptionResult × ℕ :=
  let optionCounts := calculateVoteCounts votes options.length
  let totalVotes := votes.length
  (options.enum.map (fun p =>
    ⟨p.2, optionCounts.getD p.1 0,
      calculatePercentage (optionCounts.getD p.1 0) totalVotes⟩), totalVotes)

/-- The value getPollResults returns: error message, or the poll row
with its formatted option results and total vote count. -/
inductive ResultsValue where
  | err (msg : String)
  | ok (poll : PollRow) (options : List OptionResult) (totalVotes : ℕ)
deriving DecidableEq, Repr

/-- getPollResults from poll-actions.ts: reject an empty or
whitespace-only poll id, look the poll up by the trimmed id together
with its vote rows, reject a poll whose stored options are empty, and
otherwise assemble counts, percentages and the total. -/
def getPollResults (db : DB) (pollId : String) : ResultsValue :=
  if pollId = "" ∨ jsTrim pollId = "" then .err "Invalid poll ID provided."
  else
    match db.polls.find? (fun p => p.id == jsTrim pollId) with
    | none => .err "Poll not found."
    | some poll =>
      if poll.options.length = 0 then
        .err "Invalid poll data: missing or empty options."
      else
        .ok poll
          (pollResultsCore poll.options (db.votes.filter (fun w => w.poll_id == poll.id))).1
          (pollResultsCore poll.options (db.votes.filter (fun w => w.poll_id == poll.id))).2

/-!  Helper lemmas  -/

/-- Successful validation: the sanitized options are the sanitized
non-empty-after-trim input options and there are between 2 and 10 of
them. -/
theorem validatePollInput_ok_shape {question : String} {options : List String}
    {sq : String} {so : List String}
    (h : validatePollInput question options = .ok sq so) :
    sq = sanitizeString question ∧
    so = (filterValidOptions options).map sanitizeString ∧
    2 ≤ so.length ∧ so.length ≤ 10 := by
  unfold validatePollInput at h
  split_ifs at h with h1 h2 h3 h4 h5 <;>
    simp only [ValidationResult.ok.injEq, reduceCtorEq] at h
  obtain ⟨hq, ho⟩ := h
  subst hq ho
  refine ⟨rfl, rfl, ?_, ?_⟩ <;> simp only [List.length_map] <;> omega

/-- Emails on the hard-coded allow-list contain the substring admin. -/
theorem adminEmails_contain_admin {e : String}
    (h : e ∈ adminEmails) : containsSubstr e "admin" = true := by
  have : e = "admin@alxpolly.com" ∨ e = "admin@example.com" := by
    simpa [adminEmails] using h
  rcases this with h' | h' <;> subst h' <;> decide

/-!  Claim theorems  -/

/-- Claim C3: a caller is classified admin exactly when their email is
on the fixed allow-list, or their email contains the substring admin,
or their role metadata equals admin; the deletePoll admin branch
(isAdminDelete, which omits the allow-list disjunct) decides the very
same predicate, because both allow-list emails themselves contain the
substring admin; and the email qa-admin at corp.com is classified admin
while not being on the allow-list. -/
theorem adminClassification (u : AuthUser) :
    (isAdminGate u = true ↔
      (adminEmails.contains (u.email.getD "") = true ∨
       (∃ e, u.email = some e ∧ containsSubstr e "admin" = true) ∨
       u.role = some "admin")) ∧
    isAdminDelete u = isAdminGate u ∧
    isAdminGate ⟨"qa-user-1", some "qa-admin@corp.com", none⟩ = true ∧
    adminEmails.contains "qa-admin@corp.com" = false := by
  refine ⟨?_, ?_, by decide, by decide⟩
  · cases he : u.email with
    | none => simp [isAdminGate, he]
    | some e => simp [isAdminGate, he, or_assoc]
  · cases he : u.email with
    | none => simp [isAdminGate, isAdminDelete, he, adminEmails]
    | some e =>
      by_cases hc : e ∈ adminEmails
      · have hs := adminEmails_contain_admin hc
        simp [isAdminGate, isAdminDelete, he, hc, hs]
      · simp [isAdminGate, isAdminDelete, he, hc]

/-- Claim C3 witness: the classification coincidence applied to the
concrete caller with email qa-admin at corp.com. -/
theorem adminClassification_witness :
    isAdminDelete ⟨"qa-user-1", some "qa-admin@corp.com", none⟩ =
      isAdminGate ⟨"qa-user-1", some "qa-admin@corp.com", none⟩ :=
  (adminClassification ⟨"qa-user-1", some "qa-admin@corp.com", none⟩).2.1

/-- Claim C7: for non-negative integers v and total with v at most
total, calculatePercentage returns 0 when total or v is 0, and
otherwise the half-up rounding of v divided by total times 100. -/
theorem calculatePercentage_rounding (v total : ℕ) (hv : v ≤ total) :
    calculatePercentage v total =
      if total = 0 ∨ v = 0 then 0
      else ⌊(v : ℚ) / (total : ℚ) * 100 + 1 / 2⌋ := by
  simp [calculatePercentage, jsRound]

/-- Claim C7 witness: two votes out of three round to 67 percent. -/
theorem calculatePercentage_rounding_witness :
    calculatePercentage 2 3 =
      if (3 : ℕ) = 0 ∨ (2 : ℕ) = 0 then 0
      else ⌊(2 : ℚ) / (3 : ℚ) * 100 + 1 / 2⌋ :=
  calculatePercentage_rounding 2 3 (by decide)

/-- Claim C1 counterexample: submitVote called with the non-empty poll
id p1 and the non-integer optionIndex one half does not fail with the
InvalidInput error: it succeeds and inserts a vote row carrying the
fractional index, although one half is not a non-negative integer. -/
theorem submitVote_c1_counterexample :
    (submitVote ⟨[⟨"p1", "u1", "q", ["a", "b"]⟩], []⟩ none "p1" (.num (1 / 2))).error
      = none ∧
    (submitVote ⟨[⟨"p1", "u1", "q", ["a", "b"]⟩], []⟩ none "p1" (.num (1 / 2))).db.votes
      = [⟨"p1", none, some (1 / 2)⟩] ∧
    ("p1" : String) ≠ "" ∧
    ¬ (0 ≤ (1 / 2 : ℚ) ∧ ((1 / 2 : ℚ)).den = 1) := by
  refine ⟨?_, ?_, by decide, by norm_num⟩ <;>
    (simp [submitVote]; norm_num)

/-- Claim C1 (amended): submitVote fails with the InvalidInput error
exactly when pollId is empty, or optionIndex is not a number, or it is
a negative number; in each of these cases it fails before any poll
lookup or vote insertion, leaving the store unchanged.  A non-integer
non-negative number is not rejected by this guard. -/
theorem submitVote_invalidInput_iff (db : DB) (user : Option AuthUser)
    (pollId : String) (optionIndex : JSVal) :
    ((submitVote db user pollId optionIndex).error = some "Invalid vote data." ↔
      pollId = "" ∨ optionIndex = .nonNum ∨ ∃ q, optionIndex = .num q ∧ q < 0) ∧
    ((pollId = "" ∨ optionIndex = .nonNum ∨ ∃ q, optionIndex = .num q ∧ q < 0) →
      submitVote db user pollId optionIndex = ⟨some "Invalid vote data.", db⟩) := by
  cases optionIndex with
  | nonNum => simp [submitVote]
  | num q =>
    by_cases hg : pollId = "" ∨ q < 0
    · constructor
      · simp only [submitVote, if_pos hg]
        constructor
        · intro _
          rcases hg with h | h
          · exact Or.inl h
          · exact Or.inr (Or.inr ⟨q, rfl, h⟩)
        · intro _; trivial
      · intro _
        simp only [submitVote, if_pos hg]
    · have hrhs : ¬ (pollId = "" ∨ JSVal.num q = .nonNum ∨
          ∃ q', JSVal.num q = .num q' ∧ q' < 0) := by
        rintro (h | h | ⟨q', hq', hlt⟩)
        · exact hg (Or.inl h)
        · exact JSVal.noConfusion h
        · cases hq'
          exact hg (Or.inr hlt)
      refine ⟨⟨fun herr => ?_, fun h => absurd h hrhs⟩, fun h => absurd h hrhs⟩
      exfalso
      simp only [submitVote, if_neg hg] at herr
      cases hf : db.polls.find? (fun p => p.id == pollId) with
      | none => rw [hf] at herr; exact absurd herr (by simp)
      | some poll =>
        rw [hf] at herr
        dsimp only at herr
        by_cases hb : (poll.options.length : ℚ) ≤ q
        · rw [if_pos hb] at herr; exact absurd herr (by simp)
        · rw [if_neg hb] at herr
          cases user with
          | none => exact absurd herr (by simp)
          | some u =>
            dsimp only at herr
            cases hv : db.votes.find?
                (fun w => w.poll_id == pollId && w.user_id == some u.id) with
            | none => rw [hv] at herr; exact absurd herr (by simp)
            | some w => rw [hv] at herr; exact absurd herr (by simp)

/-- Claim C1 witness: the empty poll id is rejected as InvalidInput on
an empty store. -/
theorem submitVote_invalidInput_iff_witness :
    submitVote ⟨[], []⟩ none "" (.num 0) = ⟨some "Invalid vote data.", ⟨[], []⟩⟩ :=
  (submitVote_invalidInput_iff ⟨[], []⟩ none "" (.num 0)).2 (Or.inl rfl)

/-- Claim C6 counterexample: createPoll runs input validation before
the authentication check, so an unauthenticated call with an empty
question returns the validation error, not the Unauthenticated error. -/
theorem createPoll_c6_counterexample :
    (createPoll ⟨[], []⟩ none "n1" "" ["a", "b"]).error = some "Question is required." ∧
    (createPoll ⟨[], []⟩ none "n1" "" ["a", "b"]).error ≠
      some "You must be logged in to create a poll." := by
  decide

/-- Claim C6 (amended): an unauthenticated createPoll call never
persists a poll, and when the supplied input passes validation the
result is the Unauthenticated error; when validation fails, the
validation error is returned instead. -/
theorem createPoll_unauthenticated (db : DB) (newId question : String)
    (options : List String) :
    (createPoll db none newId question options).db = db ∧
    (∀ sq so,
      validatePollInput question (options.filter (fun o => !(o == ""))) = .ok sq so →
      (createPoll db none newId question options).error =
        some "You must be logged in to create a poll.") := by
  cases hval : validatePollInput question (options.filter (fun o => !(o == ""))) with
  | error e =>
    refine ⟨by simp [createPoll, hval], ?_⟩
    intro sq so h
    exact ValidationResult.noConfusion h
  | ok sq so =>
    exact ⟨by simp [createPoll, hval], fun _ _ _ => by simp [createPoll, hval]⟩

/-- Claim C6 witness: unauthenticated creation of a well-formed poll
is refused with the Unauthenticated error. -/
theorem createPoll_unauthenticated_witness :
    (createPoll ⟨[], []⟩ none "n1" "q" ["a", "b"]).error =
      some "You must be logged in to create a poll." :=
  (createPoll_unauthenticated ⟨[], []⟩ "n1" "q" ["a", "b"]).2 "q" ["a", "b"] (by decide)

/-- Claim C5: an authenticated caller who owns no poll with the
targeted id and submits valid input gets a no-error response from
updatePoll while the store is left completely unchanged: the compound
id-and-owner filter matches zero rows. -/
theorem updatePoll_nonOwner (db : DB) (u : AuthUser) (pollId question : String)
    (options : List String) (sq : String) (so : List String)
    (hval : validatePollInput question (options.filter (fun o => !(o == ""))) = .ok sq so)
    (hown : ∀ p ∈ db.polls, p.id = pollId → p.user_id ≠ u.id) :
    updatePoll db (some u) pollId question options = ⟨none, db⟩ := by
  simp only [updatePoll, hval]
  have hmap : db.polls.map (fun p =>
      if p.id == pollId && p.user_id == u.id
      then { p with question := sq, options := so } else p) = db.polls := by
    conv_rhs => rw [← List.map_id db.polls]
    apply List.map_congr_left
    intro p hp
    have hcond : ¬ ((p.id == pollId && p.user_id == u.id) = true) := by
      simp only [Bool.and_eq_true, beq_iff_eq]
      rintro ⟨h1, h2⟩
      exact hown p hp h1 h2
    simp [hcond]
  rw [hmap]

/-- Claim C5 witness: a caller distinct from the poll owner updates
nothing and still receives no error. -/
theorem updatePoll_nonOwner_witness :
    updatePoll ⟨[⟨"p1", "u1", "old", ["x", "y"]⟩], []⟩ (some ⟨"u2", none, none⟩)
      "p1" "q" ["a", "b"] = ⟨none, ⟨[⟨"p1", "u1", "old", ["x", "y"]⟩], []⟩⟩ :=
  updatePoll_nonOwner ⟨[⟨"p1", "u1", "old", ["x", "y"]⟩], []⟩ ⟨"u2", none, none⟩
    "p1" "q" ["a", "b"] "q" ["a", "b"] (by decide) (by decide)

/-- Claim C4: for an authenticated caller and an existing poll,
deletePoll fails with the Forbidden error and leaves the whole store
unchanged when the caller is neither the owner nor admin; when the
caller is the owner or admin it succeeds, the votes table is untouched,
and no poll with the targeted id remains. -/
theorem deletePoll_authorization (db : DB) (u : AuthUser) (id : String)
    (poll : PollRow) (hfind : db.polls.find? (fun p => p.id == id) = some poll) :
    (poll.user_id ≠ u.id ∧ isAdminDelete u = false →
      deletePoll db (some u) id = ⟨some "You can only delete your own polls.", db⟩) ∧
    ((poll.user_id = u.id ∨ isAdminDelete u = true) →
      (deletePoll db (some u) id).error = none ∧
      (deletePoll db (some u) id).db.votes = db.votes ∧
      (deletePoll db (some u) id).db.polls = db.polls.filter (fun p => !(p.id == id)) ∧
      ∀ p ∈ (deletePoll db (some u) id).db.polls, p.id ≠ id) := by
  constructor
  · rintro ⟨hno, hadm⟩
    have hcond : (!(poll.user_id == u.id) && !(isAdminDelete u)) = true := by
      simp [hadm, hno]
    simp only [deletePoll, hfind]
    rw [if_pos hcond]
  · intro hyes
    have hcond : ¬ ((!(poll.user_id == u.id) && !(isAdminDelete u)) = true) := by
      rcases hyes with h | h <;> simp [h]
    simp only [deletePoll, hfind]
    rw [if_neg hcond]
    refine ⟨rfl, rfl, rfl, ?_⟩
    intro p hp
    have hmem := (List.mem_filter.mp hp).2
    simpa using hmem

/-- Claim C4 witness: a caller who is neither owner nor admin is
refused with the Forbidden error and the store keeps the poll. -/
theorem deletePoll_authorization_witness :
    deletePoll ⟨[⟨"p1", "u1", "q", ["a", "b"]⟩], []⟩ (some ⟨"u2", none, none⟩) "p1" =
      ⟨some "You can only delete your own polls.", ⟨[⟨"p1", "u1", "q", ["a", "b"]⟩], []⟩⟩ :=
  (deletePoll_authorization ⟨[⟨"p1", "u1", "q", ["a", "b"]⟩], []⟩ ⟨"u2", none, none⟩
    "p1" ⟨"p1", "u1", "q", ["a", "b"]⟩ (by decide)).1 (by decide)

/-- A list without the GT character contains no LT-before-GT pair. -/
theorem hasLtBeforeGt_of_not_gt {l : List Char} (h : '>' ∉ l) :
    hasLtBeforeGt l = false := by
  induction l with
  | nil => rfl
  | cons c cs ih =>
    simp only [List.mem_cons, not_or] at h
    have hcs : cs.contains '>' = false := by
      simpa using h.2
    simp only [hasLtBeforeGt, hcs, ih h.2, Bool.and_false, Bool.or_false]

/-- The tag-stripping scan never emits a LT character that is followed
by a GT character, in either state, provided the pending candidate
holds no GT (which the scan maintains). -/
theorem stripTagsAux_tagFree (l : List Char) :
    hasLtBeforeGt (stripTagsAux none l) = false ∧
    ∀ pending, '>' ∉ pending → hasLtBeforeGt (stripTagsAux (some pending) l) = false := by
  induction l with
  | nil =>
    refine ⟨rfl, fun pending hp => ?_⟩
    simp only [stripTagsAux]
    exact hasLtBeforeGt_of_not_gt (by simpa using hp)
  | cons c cs ih =>
    constructor
    · by_cases hc : c = '<'
      · simp only [stripTagsAux, if_pos hc]
        exact ih.2 [c] (by simp [hc])
      · simp only [stripTagsAux, if_neg hc]
        simp [hasLtBeforeGt, hc, ih.1]
    · intro pending hp
      by_cases hc : c = '>'
      · simp only [stripTagsAux, if_pos hc]
        exact ih.1
      · simp only [stripTagsAux, if_neg hc]
        refine ih.2 (c :: pending) ?_
        simp only [List.mem_cons, not_or]
        exact ⟨fun h => hc h.symm, hp⟩

/-- sanitizeString output never contains a substring matching the
HTML-tag-like pattern: no LT character is followed by a GT character. -/
theorem sanitizeString_tagFree (s : String) :
    hasLtBeforeGt (sanitizeString s).data = false :=
  (stripTagsAux_tagFree (jsTrim s).data).1

/-- Sanitized options coming out of a successful validation: there are
2 to 10 of them and each is the trim-then-strip image of an input
option that was non-empty after trimming. -/
theorem sanitizedOptions_provenance {question : String} {options : List String}
    {sq : String} {so : List String}
    (h : validatePollInput question options = .ok sq so) :
    2 ≤ so.length ∧ so.length ≤ 10 ∧
    ∀ o ∈ so, ∃ raw, raw ∈ options ∧ jsTrim raw ≠ "" ∧ o = sanitizeString raw := by
  obtain ⟨-, hso, h2, h10⟩ := validatePollInput_ok_shape h
  refine ⟨h2, h10, ?_⟩
  intro o ho
  rw [hso] at ho
  obtain ⟨raw, hraw, rfl⟩ := List.mem_map.mp ho
  unfold filterValidOptions at hraw
  have hmem := List.mem_filter.mp hraw
  refine ⟨raw, hmem.1, ?_, rfl⟩
  have := hmem.2
  simp only [Bool.and_eq_true, Bool.not_eq_true', beq_eq_false_iff_ne, ne_eq] at this
  exact this.2

/-- Claim C2 counterexample: createPoll by an authenticated caller with
the options list containing a pure HTML tag persists a poll whose first
stored option is the empty string, because sanitization runs after the
non-emptiness check: the stored option is empty after trimming. -/
theorem createPoll_c2_counterexample :
    ∃ p ∈ (createPoll ⟨[], []⟩ (some ⟨"u1", none, none⟩) "n1" "q" ["<b>", "x"]).db.polls,
      ∃ o ∈ p.options, jsTrim o = "" := by
  decide

/-- Claim C2 (amended): every poll row added by createPoll or rewritten
by updatePoll has between 2 and 10 stored options, and each stored
option is the trim-then-tag-strip image of an input option that was
non-empty after trimming; the stored text itself, however, may be empty
after trimming when that input consisted solely of HTML-tag-like
text. -/
theorem pollWrite_options_invariant (db : DB) (u : AuthUser)
    (newId pollId question : String) (options : List String) :
    (∀ p ∈ (createPoll db (some u) newId question options).db.polls,
      p ∈ db.polls ∨
      (2 ≤ p.options.length ∧ p.options.length ≤ 10 ∧
       ∀ o ∈ p.options, ∃ raw, raw ∈ options ∧ jsTrim raw ≠ "" ∧ o = sanitizeString raw)) ∧
    (∀ p ∈ (updatePoll db (some u) pollId question options).db.polls,
      p ∈ db.polls ∨
      (2 ≤ p.options.length ∧ p.options.length ≤ 10 ∧
       ∀ o ∈ p.options, ∃ raw, raw ∈ options ∧ jsTrim raw ≠ "" ∧ o = sanitizeString raw)) := by
  constructor
  · intro p hp
    cases hval : validatePollInput question (options.filter (fun o => !(o == ""))) with
    | error e =>
      simp only [createPoll, hval] at hp
      exact Or.inl hp
    | ok sq so =>
      simp only [createPoll, hval] at hp
      rcases List.mem_append.mp hp with hin | hnew
      · exact Or.inl hin
      · obtain ⟨h2, h10, hprov⟩ := sanitizedOptions_provenance hval
        have hpnew : p = ⟨newId, u.id, sq, so⟩ := by simpa using hnew
        subst hpnew
        refine Or.inr ⟨h2, h10, ?_⟩
        intro o ho
        obtain ⟨raw, hraw, hne, heq⟩ := hprov o ho
        exact ⟨raw, List.mem_of_mem_filter hraw, hne, heq⟩
  · intro p hp
    cases hval : validatePollInput question (options.filter (fun o => !(o == ""))) with
    | error e =>
      simp only [updatePoll, hval] at hp
      exact Or.inl hp
    | ok sq so =>
      simp only [updatePoll, hval] at hp
      obtain ⟨p0, hp0, hfp⟩ := List.mem_map.mp hp
      by_cases hcond : (p0.id == pollId && p0.user_id == u.id) = true
      · rw [if_pos hcond] at hfp
        obtain ⟨h2, h10, hprov⟩ := sanitizedOptions_provenance hval
        refine Or.inr ?_
        rw [← hfp]
        refine ⟨h2, h10, ?_⟩
        intro o ho
        obtain ⟨raw, hraw, hne, heq⟩ := hprov o ho
        exact ⟨raw, List.mem_of_mem_filter hraw, hne, heq⟩
      · rw [if_neg hcond] at hfp
        exact Or.inl (hfp ▸ hp0)

/-- Claim C2 witness: a well-formed creation yields a stored option
list of length 2 whose members all trace back to non-empty inputs. -/
theorem pollWrite_options_invariant_witness :
    (⟨"n1", "u1", "q", ["a", "b"]⟩ : PollRow) ∈ (⟨[], []⟩ : DB).polls ∨
    (2 ≤ (["a", "b"] : List String).length ∧ (["a", "b"] : List String).length ≤ 10 ∧
     ∀ o ∈ (["a", "b"] : List String),
       ∃ raw, raw ∈ (["a", "b"] : List String) ∧ jsTrim raw ≠ "" ∧ o = sanitizeString raw) :=
  (pollWrite_options_invariant ⟨[], []⟩ ⟨"u1", none, none⟩ "n1" "px" "q" ["a", "b"]).1
    ⟨"n1", "u1", "q", ["a", "b"]⟩ (by decide)

/-- Claim C9 counterexample: with a valid question and two valid
options, validatePollInput succeeds but its first sanitized option
keeps a leading space: trimming happens before tag removal, so text
uncovered by deleting a tag is not trimmed again. -/
theorem validatePollInput_c9_counterexample :
    validatePollInput "q" ["<b> hi", "x"] = .ok "q" [" hi", "x"] ∧
    jsTrim " hi" ≠ " hi" := by
  decide

/-- Claim C9 (amended): for a question that is non-empty after trimming
and at most 500 characters, and 2 to 10 options each non-empty after
trimming and at most 200 characters, validatePollInput succeeds and
returns the trim-then-tag-strip image of the question and of every
option; the sanitized texts contain no HTML-tag-like substring, but may
carry leading or trailing whitespace exposed by tag removal. -/
theorem validatePollInput_valid_success (question : String) (options : List String)
    (hq : jsTrim question ≠ "") (hqlen : question.length ≤ 500)
    (hlo : 2 ≤ options.length) (hhi : options.length ≤ 10)
    (hopts : ∀ o ∈ options, jsTrim o ≠ "" ∧ o.length ≤ 200) :
    validatePollInput question options =
      .ok (sanitizeString question) (options.map sanitizeString) ∧
    hasLtBeforeGt (sanitizeString question).data = false ∧
    ∀ o ∈ options, hasLtBeforeGt (sanitizeString o).data = false := by
  have hfilter : filterValidOptions options = options := by
    unfold filterValidOptions
    apply List.filter_eq_self.mpr
    intro o ho
    have hne := (hopts o ho).1
    have hoe : o ≠ "" := fun h => hne (by rw [h]; rfl)
    simp [hoe, hne]
  have hqe : ¬ (question = "" ∨ jsTrim question = "") := by
    rintro (h | h)
    · exact hq (by rw [h]; rfl)
    · exact hq h
  refine ⟨?_, sanitizeString_tagFree question, fun o _ => sanitizeString_tagFree o⟩
  unfold validatePollInput
  rw [if_neg hqe, if_neg (by omega : ¬ 500 < question.length), hfilter,
    if_neg (by omega : ¬ options.length < 2), if_neg (by omega : ¬ 10 < options.length),
    if_neg ?hlen]
  case hlen =>
    simp only [List.any_eq_true, not_exists, not_and]
    intro o ho
    have := (hopts o ho).2
    simp only [decide_eq_true_eq]
    omega

/-- Claim C9 witness: the success equation applied to a concrete valid
input. -/
theorem validatePollInput_valid_success_witness :
    validatePollInput "q" ["a", "b"] =
      .ok (sanitizeString "q") ((["a", "b"] : List String).map sanitizeString) ∧
    hasLtBeforeGt (sanitizeString "q").data = false ∧
    ∀ o ∈ (["a", "b"] : List String), hasLtBeforeGt (sanitizeString o).data = false :=
  validatePollInput_valid_success "q" ["a", "b"] (by decide) (by decide) (by decide)
    (by decide) (by decide)

/-- A vote failing the validity test leaves the count array alone. -/
theorem countStep_invalid {n : ℕ} {acc : List ℕ} {v : VoteRow}
    (h : validIndexFor n v.option_index = false) : countStep n acc v = acc := by
  unfold countStep
  unfold validIndexFor at h
  cases hoi : v.option_index with
  | none => rfl
  | some q =>
    rw [hoi] at h
    dsimp only at h ⊢
    rw [if_neg]
    rintro ⟨h1, h2, h3⟩
    simp [h1, h2, h3] at h

/-- A counting step never changes the length of the count array. -/
theorem countStep_length (n : ℕ) (acc : List ℕ) (v : VoteRow) :
    (countStep n acc v).length = acc.length := by
  unfold countStep
  cases v.option_index with
  | none => rfl
  | some q =>
    dsimp only
    split <;> simp

/-- Bumping the entry at a position inside the list raises the sum by
exactly one. -/
theorem sum_set_getD_succ :
    ∀ (l : List ℕ) (i : ℕ), i < l.length →
      (l.set i (l.getD i 0 + 1)).sum = l.sum + 1 := by
  intro l
  induction l with
  | nil => intro i h; simp at h
  | cons a l ih =>
    intro i h
    cases i with
    | zero => simp [List.getD_cons_zero]; omega
    | succ j =>
      simp only [List.set_cons_succ, List.getD_cons_succ, List.sum_cons]
      have := ih j (by simpa using h)
      omega

/-- Bumping the entry at any position, in or out of range, raises the
sum by at most one. -/
theorem sum_set_getD_le :
    ∀ (l : List ℕ) (i : ℕ), (l.set i (l.getD i 0 + 1)).sum ≤ l.sum + 1 := by
  intro l
  induction l with
  | nil => intro i; simp
  | cons a l ih =>
    intro i
    cases i with
    | zero => simp [List.getD_cons_zero]; omega
    | succ j =>
      simp only [List.set_cons_succ, List.getD_cons_succ, List.sum_cons]
      have := ih j
      omega

/-- A counting step raises the sum of the count array by at most one. -/
theorem countStep_sum_le (n : ℕ) (acc : List ℕ) (v : VoteRow) :
    (countStep n acc v).sum ≤ acc.sum + 1 := by
  unfold countStep
  cases v.option_index with
  | none => dsimp only; omega
  | some q =>
    dsimp only
    split
    · exact sum_set_getD_le acc _
    · omega

/-- A valid vote against a count array of the right length raises the
sum by exactly one. -/
theorem countStep_sum_valid {n : ℕ} {acc : List ℕ} {v : VoteRow}
    (hlen : acc.length = n) (h : validIndexFor n v.option_index = true) :
    (countStep n acc v).sum = acc.sum + 1 := by
  unfold countStep
  unfold validIndexFor at h
  cases hoi : v.option_index with
  | none => rw [hoi] at h; exact Bool.noConfusion h
  | some q =>
    rw [hoi] at h
    dsimp only at h ⊢
    simp only [Bool.and_eq_true, decide_eq_true_eq, beq_iff_eq] at h
    obtain ⟨⟨h0, hlt⟩, hden⟩ := h
    rw [if_pos ⟨h0, hlt, hden⟩]
    apply sum_set_getD_succ
    rw [hlen]
    have hnum : 0 ≤ q.num := Rat.num_nonneg.mpr h0
    have hq : (q.num : ℚ) = q := Rat.coe_int_num_of_den_eq_one hden
    have hlt' : (q.num : ℚ) < (n : ℚ) := by rw [hq]; exact hlt
    have hzlt : q.num < (n : ℤ) := by exact_mod_cast hlt'
    omega

/-- Over any initial array, the fold adds at most one per vote. -/
theorem foldl_countStep_sum_le (n : ℕ) (votes : List VoteRow) :
    ∀ acc : List ℕ, (votes.foldl (countStep n) acc).sum ≤ acc.sum + votes.length := by
  induction votes with
  | nil => intro acc; simp
  | cons v vs ih =>
    intro acc
    simp only [List.foldl_cons, List.length_cons]
    have h1 := ih (countStep n acc v)
    have h2 := countStep_sum_le n acc v
    omega

/-- When every vote is valid the fold adds exactly one per vote. -/
theorem foldl_countStep_sum_eq (n : ℕ) (votes : List VoteRow) :
    ∀ acc : List ℕ, acc.length = n →
      (∀ v ∈ votes, validIndexFor n v.option_index = true) →
      (votes.foldl (countStep n) acc).sum = acc.sum + votes.length := by
  induction votes with
  | nil => intro acc _ _; simp
  | cons v vs ih =>
    intro acc hlen hall
    simp only [List.foldl_cons, List.length_cons]
    have hstep := countStep_sum_valid hlen (hall v (List.mem_cons_self v vs))
    have hlen' : (countStep n acc v).length = n := by
      rw [countStep_length, hlen]
    have := ih (countStep n acc v) hlen' (fun w hw => hall w (List.mem_cons_of_mem v hw))
    omega

/-- The per-option counts sum to at most the number of vote rows, with
equality when every vote is valid. -/
theorem calculateVoteCounts_sum (votes : List VoteRow) (n : ℕ) :
    (calculateVoteCounts votes n).sum ≤ votes.length ∧
    ((∀ v ∈ votes, validIndexFor n v.option_index = true) →
      (calculateVoteCounts votes n).sum = votes.length) := by
  unfold calculateVoteCounts
  constructor
  · have := foldl_countStep_sum_le n votes (List.replicate n 0)
    simpa using this
  · intro hall
    have := foldl_countStep_sum_eq n votes (List.replicate n 0) (by simp) hall
    simpa using this

/-- Any entry of a list of naturals is at most the sum. -/
theorem getD_le_sum : ∀ (l : List ℕ) (i : ℕ), l.getD i 0 ≤ l.sum := by
  intro l
  induction l with
  | nil => intro i; simp
  | cons a l ih =>
    intro i
    cases i with
    | zero => simp
    | succ j =>
      simp only [List.getD_cons_succ, List.sum_cons]
      exact (ih j).trans (Nat.le_add_left _ _)

/-- calculatePercentage of a count bounded by the total lies between
0 and 100. -/
theorem calculatePercentage_mem_Icc {c total : ℕ} (h : c ≤ total) :
    0 ≤ calculatePercentage c total ∧ calculatePercentage c total ≤ 100 := by
  unfold calculatePercentage
  split_ifs with h0
  · exact ⟨le_refl 0, by norm_num⟩
  · push_neg at h0
    obtain ⟨ht, hc⟩ := h0
    have htpos : (0 : ℚ) < (total : ℚ) := by
      exact_mod_cast Nat.pos_of_ne_zero ht
    have hx0 : (0 : ℚ) ≤ (c : ℚ) / (total : ℚ) * 100 := by positivity
    have hdle : (c : ℚ) / (total : ℚ) ≤ 1 := by
      rw [div_le_one htpos]
      exact_mod_cast h
    have hx100 : (c : ℚ) / (total : ℚ) * 100 ≤ 100 := by nlinarith
    unfold jsRound
    constructor
    · apply Int.le_floor.mpr
      push_cast
      linarith
    · have hfl : ⌊(c : ℚ) / (total : ℚ) * 100 + 1 / 2⌋ < (101 : ℤ) := by
        apply Int.floor_lt.mpr
        push_cast
        linarith
      omega

/-- Every formatted percentage assembled by pollResultsCore lies
between 0 and 100. -/
theorem pollResultsCore_percentage (options : List String) (votes : List VoteRow) :
    ∀ r ∈ (pollResultsCore options votes).1, 0 ≤ r.percentage ∧ r.percentage ≤ 100 := by
  intro r hr
  simp only [pollResultsCore] at hr
  obtain ⟨p, hmem, rfl⟩ := List.mem_map.mp hr
  apply calculatePercentage_mem_Icc
  exact (getD_le_sum _ _).trans (calculateVoteCounts_sum votes options.length).1

/-- Claim C8: a vote row whose option_index is missing, non-integer,
or out of the option range contributes to no per-option count (the
counts over a list containing it equal the counts with it removed),
yet it still inflates totalVotes, which pollResultsCore sets to the raw
number of vote rows; and the total getPollResults reports is exactly
the number of vote rows fetched for the poll. -/
theorem invalidVote_counting (n : ℕ) (pre post : List VoteRow) (v : VoteRow)
    (hinv : validIndexFor n v.option_index = false) :
    calculateVoteCounts (pre ++ v :: post) n = calculateVoteCounts (pre ++ post) n ∧
    (∀ options : List String, options.length = n →
      (pollResultsCore options (pre ++ v :: post)).2 = (pre ++ post).length + 1) ∧
    (∀ db pollId poll opts tv, getPollResults db pollId = .ok poll opts tv →
      tv = (db.votes.filter (fun w => w.poll_id == poll.id)).length) := by
  refine ⟨?_, ?_, ?_⟩
  · unfold calculateVoteCounts
    rw [List.foldl_append, List.foldl_cons, countStep_invalid hinv, ← List.foldl_append]
  · intro options _
    simp only [pollResultsCore, List.length_append, List.length_cons]
    omega
  · intro db pollId poll opts tv h
    unfold getPollResults at h
    by_cases h1 : pollId = "" ∨ jsTrim pollId = ""
    · rw [if_pos h1] at h
      exact ResultsValue.noConfusion h
    · rw [if_neg h1] at h
      cases hf : db.polls.find? (fun p => p.id == jsTrim pollId) with
      | none => rw [hf] at h; exact ResultsValue.noConfusion h
      | some poll' =>
        rw [hf] at h
        dsimp only at h
        by_cases hlen : poll'.options.length = 0
        · rw [if_pos hlen] at h
          exact ResultsValue.noConfusion h
        · rw [if_neg hlen] at h
          injection h with hpoll hopts htv
          subst hpoll
          rw [← htv]
          rfl

/-- Claim C8 witness: one valid vote for option 0 plus one vote with a
missing option_index on a 2-option poll. -/
theorem invalidVote_counting_witness :
    calculateVoteCounts ([⟨"p", none, some 0⟩] ++ (⟨"p", none, none⟩ : VoteRow) :: []) 2 =
      calculateVoteCounts ([⟨"p", none, some 0⟩] ++ []) 2 ∧
    (∀ options : List String, options.length = 2 →
      (pollResultsCore options
        ([⟨"p", none, some 0⟩] ++ (⟨"p", none, none⟩ : VoteRow) :: [])).2 =
      ([(⟨"p", none, some 0⟩ : VoteRow)] ++ []).length + 1) ∧
    (∀ db pollId poll opts tv, getPollResults db pollId = .ok poll opts tv →
      tv = (db.votes.filter (fun w => w.poll_id == poll.id)).length) :=
  invalidVote_counting 2 [⟨"p", none, some 0⟩] [] ⟨"p", none, none⟩ rfl

/-- Claim C10: for a poll with at least one option, the per-option
counts sum to at most the number of vote rows, with equality when every
vote is valid, and every percentage assembled by pollResultsCore and
hence every percentage returned by getPollResults lies between 0 and
100. -/
theorem voteCounts_bounds (options : List String) (votes : List VoteRow)
    (hn : 1 ≤ options.length) :
    (calculateVoteCounts votes options.length).sum ≤ votes.length ∧
    ((∀ v ∈ votes, validIndexFor options.length v.option_index = true) →
      (calculateVoteCounts votes options.length).sum = votes.length) ∧
    (∀ r ∈ (pollResultsCore options votes).1, 0 ≤ r.percentage ∧ r.percentage ≤ 100) ∧
    (∀ db pollId poll opts tv, getPollResults db pollId = .ok poll opts tv →
      ∀ r ∈ opts, 0 ≤ r.percentage ∧ r.percentage ≤ 100) := by
  refine ⟨(calculateVoteCounts_sum votes options.length).1,
    (calculateVoteCounts_sum votes options.length).2,
    pollResultsCore_percentage options votes, ?_⟩
  intro db pollId poll opts tv h
  unfold getPollResults at h
  by_cases h1 : pollId = "" ∨ jsTrim pollId = ""
  · rw [if_pos h1] at h
    exact ResultsValue.noConfusion h
  · rw [if_neg h1] at h
    cases hf : db.polls.find? (fun p => p.id == jsTrim pollId) with
    | none => rw [hf] at h; exact ResultsValue.noConfusion h
    | some poll' =>
      rw [hf] at h
      dsimp only at h
      by_cases hlen : poll'.options.length = 0
      · rw [if_pos hlen] at h
        exact ResultsValue.noConfusion h
      · rw [if_neg hlen] at h
        injection h with hpoll hopts htv
        rw [← hopts]
        exact pollResultsCore_percentage poll'.options
          (db.votes.filter (fun w => w.poll_id == poll'.id))

/-- Claim C10 witness: two options and three votes, one of them for
option 1 and two for option 0. -/
theorem voteCounts_bounds_witness :
    (calculateVoteCounts [⟨"p", none, some 0⟩, ⟨"p", none, some 0⟩, ⟨"p", none, some 1⟩]
        (["A", "B"] : List String).length).sum ≤
      ([⟨"p", none, some 0⟩, ⟨"p", none, some 0⟩, ⟨"p", none, some 1⟩] : List VoteRow).length ∧
    ((∀ v ∈ ([⟨"p", none, some 0⟩, ⟨"p", none, some 0⟩, ⟨"p", none, some 1⟩] : List VoteRow),
        validIndexFor (["A", "B"] : List String).length v.option_index = true) →
      (calculateVoteCounts [⟨"p", none, some 0⟩, ⟨"p", none, some 0⟩, ⟨"p", none, some 1⟩]
        (["A", "B"] : List String).length).sum =
      ([⟨"p", none, some 0⟩, ⟨"p", none, some 0⟩, ⟨"p", none, some 1⟩] : List VoteRow).length) ∧
    (∀ r ∈ (pollResultsCore ["A", "B"]
        [⟨"p", none, some 0⟩, ⟨"p", none, some 0⟩, ⟨"p", none, some 1⟩]).1,
      0 ≤ r.percentage ∧ r.percentage ≤ 100) ∧
    (∀ db pollId poll opts tv, getPollResults db pollId = .ok poll opts tv →
      ∀ r ∈ opts, 0 ≤ r.percentage ∧ r.percentage ≤ 100) :=
  voteCounts_bounds ["A", "B"]
    [⟨"p", none, some 0⟩, ⟨"p", none, some 0⟩, ⟨"p", none, some 1⟩] (by decide)

end Polly
